import Mathlib

/-!
Shallow embedding of the stemr LNA path engine (`src/stemr/src/propose_lna.cpp`)
and the slice-sampler interval-width adapter
(`src/stemr/src/update_interval_widths.cpp`).

Real-valued quantities (C++ `double`) are modelled by `ℝ`; vectors and
matrices by total functions `ℕ → ℝ` and `ℕ → ℕ → ℝ` together with explicit
dimension bounds, so that every armadillo slice/span operation of the source
becomes an indexed formula.  The external ODE integrator
(`CALL_INTEGRATE_STEM_ODE` reached through `lna_pointer`) is modelled as an
opaque deterministic function of the installed parameter vector and the
interval endpoints, and armadillo's `svd` as an opaque oracle returning
`none` exactly when the decomposition does not converge.  Exceptions
forwarded to R by `forward_exception_to_r` abort the invocation, which is
modelled with `Except`: an `error` result carries the error kind and no
path is produced.  `ℝ` has no non-finite values, so the `has_nan` guard of
line 127 is vacuous in the real-valued model; the control flow of that
guard is modelled separately on the scalar type `FVal` below, which has
explicit NaN and infinity values.
-/

namespace Stemr

/-- Error kinds of the engine, per the spec's error taxonomy: the thrown
runtime errors "Integration failed.", "SVD failed.", "Negative increment."
and "Negative compartment volumes." of `propose_lna.cpp`. -/
inductive LnaError
  | IntegrationFailure
  | DecompositionFailure
  | NegativeIncrement
  | NegativeVolume
deriving DecidableEq

/-- Real vectors, indexed beyond their length by junk values. -/
abbrev Vec : Type := ℕ → ℝ

/-- Real matrices. -/
abbrev Mat : Type := ℕ → ℕ → ℝ

/-- The inputs of `propose_lna` (its R-level arguments), with dimensions
made explicit.  `nc`/`ne` are `n_comps`/`n_events` (rows/cols of the
stoichiometry matrix), `nt` is `n_times`, `P` the number of columns of
`lna_pars`, `ntc` is `n_tcovar` (the source only uses the *size* of
`lna_tcovar_inds`; `lna_param_inds` is unused by the source).
`max_attempts` is accepted and, as in the source, never used. -/
structure LnaInputs where
  nc : ℕ
  ne : ℕ
  nt : ℕ
  P : ℕ
  ntc : ℕ
  nf : ℕ
  times : ℕ → ℝ
  pars : ℕ → ℕ → ℝ
  init_start : ℕ
  param_update_inds : ℕ → Bool
  stoich : Mat
  forcing_inds : ℕ → Bool
  forcing_tcov_inds : ℕ → ℕ
  forcings_out : Mat
  forcing_transfers : ℕ → Mat
  draws : ℕ → ℕ → ℝ
  max_attempts : ℤ
  step_size : ℝ

/-- The external ODE integrator: from the installed parameter vector and
`(t_L, t_R, step_size)` it produces the drift vector (first `n_events`
slots of `lna_state_vec`) and the diffusion matrix (remaining
`n_events²` slots).  Modelling it as a function is the spec's requirement
that the solver output be a deterministic function of the installed
parameters and the interval. -/
abbrev Solver : Type := (ℕ → ℝ) → ℝ → ℝ → ℝ → (Vec × Mat)

/-- Armadillo's `svd`: `none` models a decomposition that does not
converge (`good_svd == false`), `some (U, d, V)` a converged one. -/
abbrev SvdOracle : Type := Mat → Option (Mat × Vec × Mat)

/-- Armadillo `normalise(v, 1)` restricted to the first `n` entries:
division by the L1 norm.  When the norm is zero every entry of `v` below
`n` is zero and division by zero yields zero in `ℝ`, which agrees with
armadillo's zero-norm guard (it divides by 1, returning the zero vector). -/
noncomputable def normalise1 (v : Vec) (n : ℕ) : Vec :=
  fun i => v i / ∑ k ∈ Finset.range n, |v k|

/-- One forcing type (`propose_lna.cpp` lines 98-103 and 192-197): read the
flow magnitude from column `forcing_tcov_inds k` of trajectory row `row`,
distribute it over compartments proportionally to
`forcings_out.col(k) % volumes` (L1-normalised), and add
`forcing_transfers.slice(k) * distvec` to the volumes. -/
noncomputable def applyForcing (inp : LnaInputs) (row : ℕ) (v : Vec) (k : ℕ) : Vec :=
  fun i => v i + ∑ c ∈ Finset.range inp.nc,
    inp.forcing_transfers k i c *
      (inp.pars row (inp.forcing_tcov_inds k) *
        normalise1 (fun c2 => inp.forcings_out c2 k * v c2) inp.nc c)

/-- All forcing types at one time, applied sequentially for
`k = 0, …, n_forcings - 1`, each seeing the previous one's result. -/
noncomputable def applyForcings (inp : LnaInputs) (row : ℕ) (v : Vec) : Vec :=
  (List.range inp.nf).foldl (applyForcing inp row) v

/-- The first `k` forcing types applied sequentially (recursion form used
to state sequentiality). -/
noncomputable def forcingsUpTo (inp : LnaInputs) (row : ℕ) (v : Vec) : ℕ → Vec
  | 0 => v
  | k + 1 => applyForcing inp row (forcingsUpTo inp row v k) k

/-- Modelled from the spec: the net change of the compartment volumes
produced by the forcings applied at a grid time. -/
noncomputable def forcingDelta (inp : LnaInputs) (row : ℕ) (v : Vec) : Vec :=
  fun i => applyForcings inp row v i - v i

/-- `svd_d.elem(find(svd_d < 0)).zeros()`: clamp negative singular values. -/
noncomputable def clampNeg (d : Vec) : Vec :=
  fun k => if d k < 0 then 0 else d k

/-- Lines 138-141 of `propose_lna.cpp`: scale the columns of `V` by the
square roots of the clamped singular values, multiply `U` by the result's
transpose, and zero the entries at positions where the diffusion matrix is
exactly zero.  Entry `(i, j)` is `∑ k, U i k * sqrt (d' k) * V j k`. -/
noncomputable def svdSqrt (U : Mat) (d : Vec) (V : Mat) (D : Mat) (n : ℕ) : Mat :=
  fun i j =>
    if D i j = 0 then 0
    else ∑ k ∈ Finset.range n, U i k * Real.sqrt (clampNeg d k) * V j k

/-- Matrix product truncated to dimension `n`. -/
noncomputable def matMulN (A B : Mat) (n : ℕ) : Mat :=
  fun i j => ∑ k ∈ Finset.range n, A i k * B k j

/-- Diagonal matrix of a vector. -/
noncomputable def diagMat (d : Vec) : Mat :=
  fun i j => if i = j then d i else 0

/-- Matrix transpose. -/
noncomputable def transposeM (A : Mat) : Mat :=
  fun i j => A j i

/-- Modelled from the spec: `S = U · diag(sqrt d') · Vᵗ` with negative
singular values clamped to zero, then entries zeroed at positions where
the diffusion entry is exactly zero. -/
noncomputable def svdSqrtSpec (U : Mat) (d : Vec) (V : Mat) (D : Mat) (n : ℕ) : Mat :=
  fun i j =>
    if D i j = 0 then 0
    else matMulN (matMulN U (diagMat (fun k => Real.sqrt (clampNeg d k))) n) (transposeM V) n i j

/-- The decomposition step: a non-converging `svd` becomes
`DecompositionFailure`, otherwise the computed square root is returned. -/
noncomputable def diffusionSqrt (o : SvdOracle) (D : Mat) (n : ℕ) : Except LnaError Mat :=
  match o D with
  | none => .error .DecompositionFailure
  | some (U, d, V) => .ok (svdSqrt U d V D n)

/-- `arma::vec init_volumes(current_params.begin() + init_start, n_comps)`:
the initial compartment volumes extracted from trajectory row 0. -/
noncomputable def initVolumes (inp : LnaInputs) : Vec :=
  fun k => inp.pars 0 (inp.init_start + k)

/-- The mutable per-interval state: the current parameter snapshot
(`current_params`) and the current compartment volumes (`init_volumes`). -/
structure LoopState where
  params : ℕ → ℝ
  volumes : ℕ → ℝ

/-- State before interval 0: snapshot is trajectory row 0 (installed in the
solver), volumes are the extracted initial volumes with any forcing at time
0 already applied (lines 95-104; note the forcing is applied *after*
column 0 of the prevalence path is recorded, and is not written back into
the snapshot before interval 0). -/
noncomputable def initState (inp : LnaInputs) : LoopState where
  params := inp.pars 0
  volumes :=
    if inp.forcing_inds 0 then applyForcings inp 0 (initVolumes inp) else initVolumes inp

/-- Drift vector for interval `j`: first `n_events` slots of the solver
output on `[t_j, t_{j+1}]` from the installed snapshot. -/
noncomputable def driftOf (s : Solver) (inp : LnaInputs) (j : ℕ) (st : LoopState) : Vec :=
  (s st.params (inp.times j) (inp.times (j + 1)) inp.step_size).1

/-- Diffusion matrix for interval `j`: remaining `n_events²` slots of the
solver output. -/
noncomputable def diffusionOf (s : Solver) (inp : LnaInputs) (j : ℕ) (st : LoopState) : Mat :=
  (s st.params (inp.times j) (inp.times (j + 1)) inp.step_size).2

/-- `log_lna = lna_drift + svd_U * draws.col(j)`: the log-scale increment. -/
noncomputable def logIncrement (inp : LnaInputs) (s : Solver) (S : Mat) (j : ℕ)
    (st : LoopState) : Vec :=
  fun e => driftOf s inp j st e + ∑ k ∈ Finset.range inp.ne, S e k * inp.draws k j

/-- `nat_lna = expm1(log_lna)`: the natural-scale increment `exp x - 1`. -/
noncomputable def natOf (x : Vec) : Vec :=
  fun e => Real.exp (x e) - 1

/-- Lines 161-182 of `propose_lna.cpp` at the grain of the local volume
buffer: `init_volumes += stoich_matrix * nat_lna` executes *before* the
negativity checks, so the pair returned is (control outcome, contents of
`init_volumes` at exit, i.e. when the exception is forwarded or the block
falls through).  A negative increment is reported before a negative
volume. -/
noncomputable def incrementBlock (inp : LnaInputs) (vols natv : Vec) :
    Except LnaError Unit × Vec :=
  let vols2 : Vec := fun i => vols i + ∑ e ∈ Finset.range inp.ne, inp.stoich i e * natv e
  if ∃ e ∈ Finset.range inp.ne, natv e < 0 then (.error .NegativeIncrement, vols2)
  else if ∃ i ∈ Finset.range inp.nc, vols2 i < 0 then (.error .NegativeVolume, vols2)
  else (.ok (), vols2)

/-- Lines 214-228: refresh the time-varying tail of the snapshot from
trajectory row `j+1` when flagged, then overwrite the volume sub-range
with the (post-forcing) volumes.  The volume copy happens after the tail
copy, so it wins where the two ranges overlap. -/
noncomputable def newParams (inp : LnaInputs) (j : ℕ) (st : LoopState) (volsF : Vec) :
    ℕ → ℝ :=
  fun i =>
    if inp.init_start ≤ i ∧ i < inp.init_start + inp.nc then volsF (i - inp.init_start)
    else if inp.param_update_inds (j + 1) ∧ inp.P - inp.ntc ≤ i ∧ i < inp.P then
      inp.pars (j + 1) i
    else st.params i

/-- One iteration of the interval loop (lines 111-228) for interval
`j` (from `t_j` to `t_{j+1}`).  On success it returns the recorded
incidence increment (column `j+1` of `lna_path`), the recorded volumes
(column `j+1` of `prev_path`, censused *before* the forcing at `t_{j+1}`),
and the next state (post-forcing volumes, updated snapshot). -/
noncomputable def intervalStep (inp : LnaInputs) (s : Solver) (o : SvdOracle) (j : ℕ)
    (st : LoopState) : Except LnaError (Vec × Vec × LoopState) :=
  match diffusionSqrt o (diffusionOf s inp j st) inp.ne with
  | .error e => .error e
  | .ok S =>
    match incrementBlock inp st.volumes (natOf (logIncrement inp s S j st)) with
    | (.error e, _) => .error e
    | (.ok _, vols2) =>
      if inp.forcing_inds (j + 1) then
        if ∃ i ∈ Finset.range inp.nc, applyForcings inp (j + 1) vols2 i < 0 then
          .error .NegativeVolume
        else
          .ok (natOf (logIncrement inp s S j st), vols2,
            ⟨newParams inp j st (applyForcings inp (j + 1) vols2),
             applyForcings inp (j + 1) vols2⟩)
      else .ok (natOf (logIncrement inp s S j st), vols2, ⟨newParams inp j st vols2, vols2⟩)

/-- The loop state after `j` completed intervals; an error aborts the
invocation (`forward_exception_to_r`). -/
noncomputable def stateAfter (inp : LnaInputs) (s : Solver) (o : SvdOracle) :
    ℕ → Except LnaError LoopState
  | 0 => .ok (initState inp)
  | j + 1 =>
    Except.bind (stateAfter inp s o j) fun st =>
      Except.map (fun out => out.2.2) (intervalStep inp s o j st)

/-- Column `c` of the prevalence path, volume rows only: column 0 is the
initial volumes as recorded at line 92, *before* the time-0 forcing;
column `j+1` is the volumes recorded at line 186. -/
noncomputable def prevCol (inp : LnaInputs) (s : Solver) (o : SvdOracle) :
    ℕ → Except LnaError Vec
  | 0 => .ok (initVolumes inp)
  | j + 1 =>
    Except.bind (stateAfter inp s o j) fun st =>
      Except.map (fun out => out.2.1) (intervalStep inp s o j st)

/-- Column `c` of the incidence path, event rows only: column 0 is zero
(`arma::fill::zeros`), column `j+1` the increment recorded at line 185. -/
noncomputable def incCol (inp : LnaInputs) (s : Solver) (o : SvdOracle) :
    ℕ → Except LnaError Vec
  | 0 => .ok (fun _ => 0)
  | j + 1 =>
    Except.bind (stateAfter inp s o j) fun st =>
      Except.map (fun out => out.1) (intervalStep inp s o j st)

/-- Extract the value of a successfully computed column (a failed
invocation returns no path at all, so the default is never observable). -/
noncomputable def colVal (c : Except LnaError Vec) : Vec :=
  match c with
  | .ok v => v
  | .error _ => fun _ => 0

/-- The incidence path matrix `lna_path` before the final transpose:
row 0 holds the grid times, rows `1 … n_events` the increments. -/
noncomputable def lnaPathMat (inp : LnaInputs) (s : Solver) (o : SvdOracle) : Mat :=
  fun r c => if r = 0 then inp.times c else colVal (incCol inp s o c) (r - 1)

/-- The prevalence path matrix `prev_path` before the final transpose:
row 0 holds the grid times, rows `1 … n_comps` the volumes. -/
noncomputable def prevPathMat (inp : LnaInputs) (s : Solver) (o : SvdOracle) : Mat :=
  fun r c => if r = 0 then inp.times c else colVal (prevCol inp s o c) (r - 1)

/-- The whole invocation: run all `n_times - 1` intervals and return the
two paths, transposed as in the returned list (the draws are echoed back
unchanged by the source and carry no information beyond the input). -/
noncomputable def proposeLna (inp : LnaInputs) (s : Solver) (o : SvdOracle) :
    Except LnaError (Mat × Mat) :=
  Except.map
    (fun _ => (transposeM (lnaPathMat inp s o), transposeM (prevPathMat inp s o)))
    (stateAfter inp s o (inp.nt - 1))

/-- Index of the most recent grid time `≤ j` whose refresh flag is set
(0 when none is; the snapshot tail then still holds the row-0 values). -/
def lastRefresh (flags : ℕ → Bool) : ℕ → ℕ
  | 0 => 0
  | j + 1 => if flags (j + 1) then j + 1 else lastRefresh flags j

/-!
The double-precision values of lines 126-144, where the source inspects
`has_nan()` before attempting the decomposition.  `ℝ` cannot represent
non-finite doubles, so this fragment is modelled on a scalar type with
explicit NaN and infinities; only constructor tests are needed, no
arithmetic.
-/

/-- A double-precision value: finite, an infinity, or NaN. -/
inductive FVal
  | fin (x : ℝ)
  | pinf
  | ninf
  | nan

/-- Armadillo's per-element NaN test (`has_nan` is true only for NaN;
infinities are not NaN). -/
def FVal.isNan : FVal → Bool
  | .nan => true
  | _ => false

/-- Finiteness test (`is_finite`): false for NaN and for both infinities. -/
def FVal.isFinite : FVal → Bool
  | .fin _ => true
  | _ => false

/-- `arma::vec::has_nan()` over the first `n` entries. -/
def hasNanVec (v : ℕ → FVal) : ℕ → Bool
  | 0 => false
  | n + 1 => hasNanVec v n || (v n).isNan

/-- `arma::mat::has_nan()` over the leading `rows × ncols` block. -/
def hasNanMat (A : ℕ → ℕ → FVal) (ncols : ℕ) : ℕ → Bool
  | 0 => false
  | r + 1 => hasNanMat A ncols r || hasNanVec (A r) ncols

/-- Lines 126-144 of `propose_lna.cpp` as control flow over doubles: if
drift or diffusion has a NaN, the runtime error "Integration failed." is
thrown and the decomposition is never consulted; otherwise the oracle is
consulted, a non-converging decomposition throws "SVD failed.", and a
converging one proceeds with its output. -/
def sqrtGate {σ : Type} (o : (ℕ → ℕ → FVal) → Option σ) (drift : ℕ → FVal)
    (D : ℕ → ℕ → FVal) (n : ℕ) : Except LnaError σ :=
  if hasNanVec drift n || hasNanMat D n n then .error .IntegrationFailure
  else
    match o D with
    | none => .error .DecompositionFailure
    | some s => .ok s

/-!
The slice-sampling interval-width adapter
(`src/stemr/src/update_interval_widths.cpp`).  The five vectors mutated in
place become a state record; `c_expansions_afss` and `c_contractions_afss`
are read-only inputs.
-/

/-- The adapter state: `interval_widths`, the per-batch expansion and
contraction counts, and the stored `slice_ratios`. -/
structure AfssState where
  interval_widths : ℕ → ℝ
  n_expansions : ℕ → ℝ
  n_contractions : ℕ → ℝ
  slice_ratios : ℕ → ℝ

/-- `update_interval_widths`: recompute `slice_ratios` from the cumulative
counts, substitute them componentwise where the batch expansion
(resp. contraction) count is zero, update the widths by the Robbins-Monro
recursion on the log scale, and reset both batch counters to zero. -/
noncomputable def update_interval_widths (st : AfssState) (c_exp c_con : ℕ → ℝ)
    (adaptFactor targetVal : ℝ) : AfssState :=
  let ratios : ℕ → ℝ := fun i => c_exp i / (c_exp i + c_con i)
  let eSub : ℕ → ℝ := fun i => if st.n_expansions i = 0 then ratios i else st.n_expansions i
  let cSub : ℕ → ℝ :=
    fun i => if st.n_contractions i = 0 then ratios i else st.n_contractions i
  { interval_widths := fun i =>
      Real.exp (Real.log (st.interval_widths i) +
        adaptFactor * (eSub i / (eSub i + cSub i) - targetVal))
    n_expansions := fun _ => 0
    n_contractions := fun _ => 0
    slice_ratios := ratios }

/-!
Concrete instances used to evaluate the engine on small inputs: a mock
solver with zero drift and zero diffusion, a mock solver whose drift makes
the natural-scale increment negative, and an `svd` oracle that always
converges to the zero decomposition (the exact decomposition of the zero
diffusion matrix).
-/

/-- Mock solver: zero drift and zero diffusion on every interval. -/
noncomputable def trivSolver : Solver :=
  fun _ _ _ _ => (fun _ => 0, fun _ _ => 0)

/-- Mock solver with drift `log (1/2)`, so the natural-scale increment is
`exp (log (1/2)) - 1 = -1/2 < 0` under zero draws. -/
noncomputable def negSolver : Solver :=
  fun _ _ _ _ => (fun _ => Real.log (1 / 2), fun _ _ => 0)

/-- Mock `svd` oracle: always converges, returning the zero triple (the
exact decomposition of the zero matrix supplied by the mock solvers). -/
noncomputable def trivSvd : SvdOracle :=
  fun _ => some (fun _ _ => 0, fun _ => 0, fun _ _ => 0)

/-- A minimal invocation: one compartment, one event type, two grid times,
snapshot layout `[volume, covariate]`, no forcings, zero stoichiometry,
zero draws, initial volume 1. -/
noncomputable def trivInp : LnaInputs where
  nc := 1
  ne := 1
  nt := 2
  P := 2
  ntc := 1
  nf := 0
  times := fun j => (j : ℝ)
  pars := fun _ _ => 1
  init_start := 0
  param_update_inds := fun _ => false
  stoich := fun _ _ => 0
  forcing_inds := fun _ => false
  forcing_tcov_inds := fun _ => 0
  forcings_out := fun _ _ => 0
  forcing_transfers := fun _ _ _ => 0
  draws := fun _ _ => 0
  max_attempts := 1
  step_size := 1

/-- `trivInp` with stoichiometry 1, so a unit event moves a unit of
volume. -/
noncomputable def sInp : LnaInputs :=
  { trivInp with stoich := fun _ _ => 1 }

/-- A minimal invocation with one forcing type scheduled at every grid
time: forcing magnitude is read from column 1 of the trajectory (value 1
at time 0 and 5 at time 1), weights and the 1×1 transfer matrix are 1,
stoichiometry and draws are zero, initial volume 1. -/
noncomputable def fInp : LnaInputs where
  nc := 1
  ne := 1
  nt := 2
  P := 2
  ntc := 0
  nf := 1
  times := fun j => (j : ℝ)
  pars := fun r c => if r = 1 ∧ c = 1 then 5 else 1
  init_start := 0
  param_update_inds := fun _ => false
  stoich := fun _ _ => 0
  forcing_inds := fun _ => true
  forcing_tcov_inds := fun _ => 1
  forcings_out := fun _ _ => 1
  forcing_transfers := fun _ _ _ => 1
  draws := fun _ _ => 0
  max_attempts := 1
  step_size := 1

/-!
Reduction lemmas for the loop combinators.
-/

theorem ex_bind_ok {α β : Type} (a : α) (f : α → Except LnaError β) :
    Except.bind (Except.ok a) f = f a := rfl

theorem ex_bind_err {α β : Type} (e : LnaError) (f : α → Except LnaError β) :
    Except.bind (Except.error e : Except LnaError α) f = Except.error e := rfl

theorem ex_map_ok {α β : Type} (g : α → β) (a : α) :
    Except.map g (Except.ok a : Except LnaError α) = Except.ok (g a) := rfl

theorem ex_map_err {α β : Type} (g : α → β) (e : LnaError) :
    Except.map g (Except.error e : Except LnaError α) = Except.error e := rfl

theorem stateAfter_zero (inp : LnaInputs) (s : Solver) (o : SvdOracle) :
    stateAfter inp s o 0 = .ok (initState inp) := rfl

theorem stateAfter_succ (inp : LnaInputs) (s : Solver) (o : SvdOracle) (j : ℕ) :
    stateAfter inp s o (j + 1) =
      Except.bind (stateAfter inp s o j) fun st =>
        Except.map (fun out => out.2.2) (intervalStep inp s o j st) := rfl

theorem prevCol_zero (inp : LnaInputs) (s : Solver) (o : SvdOracle) :
    prevCol inp s o 0 = .ok (initVolumes inp) := rfl

theorem prevCol_succ (inp : LnaInputs) (s : Solver) (o : SvdOracle) (j : ℕ) :
    prevCol inp s o (j + 1) =
      Except.bind (stateAfter inp s o j) fun st =>
        Except.map (fun out => out.2.1) (intervalStep inp s o j st) := rfl

theorem incCol_succ (inp : LnaInputs) (s : Solver) (o : SvdOracle) (j : ℕ) :
    incCol inp s o (j + 1) =
      Except.bind (stateAfter inp s o j) fun st =>
        Except.map (fun out => out.1) (intervalStep inp s o j st) := rfl

theorem stateAfter_succ_ok {inp : LnaInputs} {s : Solver} {o : SvdOracle} {j : ℕ}
    {st : LoopState} {out : Vec × Vec × LoopState}
    (h1 : stateAfter inp s o j = .ok st) (h2 : intervalStep inp s o j st = .ok out) :
    stateAfter inp s o (j + 1) = .ok out.2.2 := by
  rw [stateAfter_succ, h1, ex_bind_ok, h2, ex_map_ok]

theorem prevCol_succ_ok {inp : LnaInputs} {s : Solver} {o : SvdOracle} {j : ℕ}
    {st : LoopState} {out : Vec × Vec × LoopState}
    (h1 : stateAfter inp s o j = .ok st) (h2 : intervalStep inp s o j st = .ok out) :
    prevCol inp s o (j + 1) = .ok out.2.1 := by
  rw [prevCol_succ, h1, ex_bind_ok, h2, ex_map_ok]

theorem incCol_succ_ok {inp : LnaInputs} {s : Solver} {o : SvdOracle} {j : ℕ}
    {st : LoopState} {out : Vec × Vec × LoopState}
    (h1 : stateAfter inp s o j = .ok st) (h2 : intervalStep inp s o j st = .ok out) :
    incCol inp s o (j + 1) = .ok out.1 := by
  rw [incCol_succ, h1, ex_bind_ok, h2, ex_map_ok]

theorem stateAfter_succ_err {inp : LnaInputs} {s : Solver} {o : SvdOracle} {j : ℕ}
    {st : LoopState} {e : LnaError}
    (h1 : stateAfter inp s o j = .ok st) (h2 : intervalStep inp s o j st = .error e) :
    stateAfter inp s o (j + 1) = .error e := by
  rw [stateAfter_succ, h1, ex_bind_ok, h2, ex_map_err]

theorem prevCol_succ_err {inp : LnaInputs} {s : Solver} {o : SvdOracle} {j : ℕ}
    {st : LoopState} {e : LnaError}
    (h1 : stateAfter inp s o j = .ok st) (h2 : intervalStep inp s o j st = .error e) :
    prevCol inp s o (j + 1) = .error e := by
  rw [prevCol_succ, h1, ex_bind_ok, h2, ex_map_err]

theorem incCol_succ_err {inp : LnaInputs} {s : Solver} {o : SvdOracle} {j : ℕ}
    {st : LoopState} {e : LnaError}
    (h1 : stateAfter inp s o j = .ok st) (h2 : intervalStep inp s o j st = .error e) :
    incCol inp s o (j + 1) = .error e := by
  rw [incCol_succ, h1, ex_bind_ok, h2, ex_map_err]

theorem incrementBlock_snd (inp : LnaInputs) (vols natv : Vec) :
    (incrementBlock inp vols natv).2 =
      fun i => vols i + ∑ e ∈ Finset.range inp.ne, inp.stoich i e * natv e := by
  simp only [incrementBlock]
  split
  · rfl
  · split <;> rfl

theorem incrementBlock_ok (inp : LnaInputs) (vols natv : Vec)
    (h1 : ¬ ∃ e ∈ Finset.range inp.ne, natv e < 0)
    (h2 : ¬ ∃ i ∈ Finset.range inp.nc,
        vols i + ∑ e ∈ Finset.range inp.ne, inp.stoich i e * natv e < 0) :
    incrementBlock inp vols natv =
      (.ok (), fun i => vols i + ∑ e ∈ Finset.range inp.ne, inp.stoich i e * natv e) := by
  simp only [incrementBlock]
  rw [if_neg h1, if_neg h2]

theorem incrementBlock_err_negInc (inp : LnaInputs) (vols natv : Vec)
    (h1 : ∃ e ∈ Finset.range inp.ne, natv e < 0) :
    incrementBlock inp vols natv =
      (.error .NegativeIncrement,
        fun i => vols i + ∑ e ∈ Finset.range inp.ne, inp.stoich i e * natv e) := by
  simp only [incrementBlock]
  rw [if_pos h1]

theorem intervalStep_ok_noforce (inp : LnaInputs) (s : Solver) (o : SvdOracle) (j : ℕ)
    (st : LoopState) (S : Mat)
    (hS : diffusionSqrt o (diffusionOf s inp j st) inp.ne = .ok S)
    (h1 : ¬ ∃ e ∈ Finset.range inp.ne, natOf (logIncrement inp s S j st) e < 0)
    (h2 : ¬ ∃ i ∈ Finset.range inp.nc,
        st.volumes i + ∑ e ∈ Finset.range inp.ne,
          inp.stoich i e * natOf (logIncrement inp s S j st) e < 0)
    (hf : inp.forcing_inds (j + 1) = false) :
    intervalStep inp s o j st =
      .ok (natOf (logIncrement inp s S j st),
        (fun i => st.volumes i + ∑ e ∈ Finset.range inp.ne,
          inp.stoich i e * natOf (logIncrement inp s S j st) e),
        ⟨newParams inp j st (fun i => st.volumes i + ∑ e ∈ Finset.range inp.ne,
            inp.stoich i e * natOf (logIncrement inp s S j st) e),
         fun i => st.volumes i + ∑ e ∈ Finset.range inp.ne,
            inp.stoich i e * natOf (logIncrement inp s S j st) e⟩) := by
  have hblk := incrementBlock_ok inp st.volumes (natOf (logIncrement inp s S j st)) h1 h2
  simp only [intervalStep, hS, hblk, hf, Bool.false_eq_true, if_false]

theorem intervalStep_ok_force (inp : LnaInputs) (s : Solver) (o : SvdOracle) (j : ℕ)
    (st : LoopState) (S : Mat)
    (hS : diffusionSqrt o (diffusionOf s inp j st) inp.ne = .ok S)
    (h1 : ¬ ∃ e ∈ Finset.range inp.ne, natOf (logIncrement inp s S j st) e < 0)
    (h2 : ¬ ∃ i ∈ Finset.range inp.nc,
        st.volumes i + ∑ e ∈ Finset.range inp.ne,
          inp.stoich i e * natOf (logIncrement inp s S j st) e < 0)
    (hf : inp.forcing_inds (j + 1) = true)
    (h3 : ¬ ∃ i ∈ Finset.range inp.nc,
        applyForcings inp (j + 1)
          (fun i => st.volumes i + ∑ e ∈ Finset.range inp.ne,
            inp.stoich i e * natOf (logIncrement inp s S j st) e) i < 0) :
    intervalStep inp s o j st =
      .ok (natOf (logIncrement inp s S j st),
        (fun i => st.volumes i + ∑ e ∈ Finset.range inp.ne,
          inp.stoich i e * natOf (logIncrement inp s S j st) e),
        ⟨newParams inp j st (applyForcings inp (j + 1)
            (fun i => st.volumes i + ∑ e ∈ Finset.range inp.ne,
              inp.stoich i e * natOf (logIncrement inp s S j st) e)),
         applyForcings inp (j + 1)
           (fun i => st.volumes i + ∑ e ∈ Finset.range inp.ne,
             inp.stoich i e * natOf (logIncrement inp s S j st) e)⟩) := by
  have hblk := incrementBlock_ok inp st.volumes (natOf (logIncrement inp s S j st)) h1 h2
  simp only [intervalStep, hS, hblk, hf, if_true]
  rw [if_neg h3]

theorem intervalStep_err_negInc (inp : LnaInputs) (s : Solver) (o : SvdOracle) (j : ℕ)
    (st : LoopState) (S : Mat)
    (hS : diffusionSqrt o (diffusionOf s inp j st) inp.ne = .ok S)
    (h1 : ∃ e ∈ Finset.range inp.ne, natOf (logIncrement inp s S j st) e < 0) :
    intervalStep inp s o j st = .error .NegativeIncrement := by
  have hblk := incrementBlock_err_negInc inp st.volumes (natOf (logIncrement inp s S j st)) h1
  simp only [intervalStep, hS, hblk]

theorem intervalStep_shape (inp : LnaInputs) (s : Solver) (o : SvdOracle) (j : ℕ)
    (st : LoopState) (out : Vec × Vec × LoopState)
    (h : intervalStep inp s o j st = .ok out) :
    out.2.1 = (fun i => st.volumes i +
        ∑ e ∈ Finset.range inp.ne, inp.stoich i e * out.1 e) ∧
    out.2.2.volumes =
      (if inp.forcing_inds (j + 1) then applyForcings inp (j + 1) out.2.1 else out.2.1) ∧
    out.2.2.params = newParams inp j st out.2.2.volumes := by
  unfold intervalStep at h
  split at h
  · exact absurd h (by simp)
  case _ S hd =>
    split at h
    · exact absurd h (by simp)
    case _ u vols2 hblk =>
      have hv2 : vols2 = fun i => st.volumes i + ∑ e ∈ Finset.range inp.ne,
          inp.stoich i e * natOf (logIncrement inp s S j st) e := by
        have := congrArg Prod.snd hblk
        rw [incrementBlock_snd] at this
        exact this.symm
      split at h
      case _ hf =>
        split at h
        · exact absurd h (by simp)
        case _ hneg =>
          rw [Except.ok.injEq] at h
          subst h
          refine ⟨?_, ?_, rfl⟩
          · exact hv2
          · simp only [hf, if_true]
      case _ hf =>
        rw [Except.ok.injEq] at h
        subst h
        refine ⟨hv2, ?_, rfl⟩
        simp only [Bool.not_eq_true] at hf
        simp only [hf, Bool.false_eq_true, if_false]

theorem state_volumes_forcing (inp : LnaInputs) (s : Solver) (o : SvdOracle) :
    ∀ (j : ℕ) (st : LoopState) (p : Vec),
      stateAfter inp s o j = .ok st → prevCol inp s o j = .ok p →
      st.volumes = (if inp.forcing_inds j then applyForcings inp j p else p) := by
  intro j
  cases j with
  | zero =>
    intro st p h1 h2
    rw [stateAfter_zero, Except.ok.injEq] at h1
    rw [prevCol_zero, Except.ok.injEq] at h2
    subst h1; subst h2
    rfl
  | succ j =>
    intro st p h1 h2
    rw [stateAfter_succ] at h1
    rw [prevCol_succ] at h2
    cases hs : stateAfter inp s o j with
    | error e => rw [hs, ex_bind_err] at h1; exact absurd h1 (by simp)
    | ok st0 =>
      rw [hs, ex_bind_ok] at h1 h2
      cases hi : intervalStep inp s o j st0 with
      | error e => rw [hi, ex_map_err] at h1; exact absurd h1 (by simp)
      | ok out =>
        rw [hi, ex_map_ok, Except.ok.injEq] at h1 h2
        subst h1; subst h2
        exact (intervalStep_shape inp s o j st0 out hi).2.1

theorem zeroStep (inp : LnaInputs) (s : Solver) (o : SvdOracle)
    (hdrift : ∀ p a b h e, (s p a b h).1 e = 0)
    (hdraws : ∀ e j2, inp.draws e j2 = 0)
    (hsvd : ∀ D, ∃ t, o D = some t)
    (hforce : ∀ j2, inp.forcing_inds j2 = false)
    (j : ℕ) (st : LoopState) (hvol : ∀ i, 0 ≤ st.volumes i) :
    ∃ out, intervalStep inp s o j st = .ok out ∧ (∀ e, out.1 e = 0) ∧
      (∀ i, out.2.1 i = st.volumes i) ∧ (∀ i, out.2.2.volumes i = st.volumes i) := by
  obtain ⟨⟨U, d, V⟩, hsome⟩ := hsvd (diffusionOf s inp j st)
  have hS : diffusionSqrt o (diffusionOf s inp j st) inp.ne =
      .ok (svdSqrt U d V (diffusionOf s inp j st) inp.ne) := by
    simp only [diffusionSqrt, hsome]
  have hnat : ∀ e,
      natOf (logIncrement inp s (svdSqrt U d V (diffusionOf s inp j st) inp.ne) j st) e = 0 := by
    intro e
    simp [natOf, logIncrement, driftOf, hdrift, hdraws, Real.exp_zero]
  have hsum : ∀ i, st.volumes i + ∑ e ∈ Finset.range inp.ne,
      inp.stoich i e *
        natOf (logIncrement inp s (svdSqrt U d V (diffusionOf s inp j st) inp.ne) j st) e =
      st.volumes i := by
    intro i
    simp [hnat]
  have h1 : ¬ ∃ e ∈ Finset.range inp.ne,
      natOf (logIncrement inp s (svdSqrt U d V (diffusionOf s inp j st) inp.ne) j st) e < 0 := by
    rintro ⟨e, _, hlt⟩
    rw [hnat e] at hlt
    exact absurd hlt (lt_irrefl 0)
  have h2 : ¬ ∃ i ∈ Finset.range inp.nc, st.volumes i + ∑ e ∈ Finset.range inp.ne,
      inp.stoich i e *
        natOf (logIncrement inp s (svdSqrt U d V (diffusionOf s inp j st) inp.ne) j st) e < 0 := by
    rintro ⟨i, _, hlt⟩
    rw [hsum i] at hlt
    exact absurd hlt (not_lt.mpr (hvol i))
  refine ⟨_, intervalStep_ok_noforce inp s o j st _ hS h1 h2 (hforce (j + 1)), ?_, ?_, ?_⟩
  · exact hnat
  · exact hsum
  · exact hsum

theorem zeroRun (inp : LnaInputs) (s : Solver) (o : SvdOracle)
    (hdrift : ∀ p a b h e, (s p a b h).1 e = 0)
    (hdraws : ∀ e j2, inp.draws e j2 = 0)
    (hsvd : ∀ D, ∃ t, o D = some t)
    (hforce : ∀ j2, inp.forcing_inds j2 = false)
    (hvol : ∀ i, 0 ≤ initVolumes inp i) :
    ∀ j, ∃ st, stateAfter inp s o j = .ok st ∧ (∀ i, st.volumes i = initVolumes inp i) ∧
      (∀ i, colVal (prevCol inp s o j) i = initVolumes inp i) ∧
      (∀ e, colVal (incCol inp s o j) e = 0) := by
  intro j
  induction j with
  | zero =>
    refine ⟨initState inp, rfl, ?_, fun i => rfl, fun e => rfl⟩
    intro i
    simp [initState, hforce 0]
  | succ j ih =>
    obtain ⟨st, hst, hv, _, _⟩ := ih
    have hvol2 : ∀ i, 0 ≤ st.volumes i := by
      intro i; rw [hv i]; exact hvol i
    obtain ⟨out, hstep, hn, hv21, hv22⟩ :=
      zeroStep inp s o hdrift hdraws hsvd hforce j st hvol2
    refine ⟨out.2.2, stateAfter_succ_ok hst hstep, ?_, ?_, ?_⟩
    · intro i; rw [hv22 i]; exact hv i
    · intro i
      rw [prevCol_succ_ok hst hstep]
      show out.2.1 i = initVolumes inp i
      rw [hv21 i]; exact hv i
    · intro e
      rw [incCol_succ_ok hst hstep]
      exact hn e

theorem applyForcings_eq_upTo (inp : LnaInputs) (row : ℕ) (v : Vec) :
    ∀ n, (List.range n).foldl (applyForcing inp row) v = forcingsUpTo inp row v n := by
  intro n
  induction n with
  | zero => rfl
  | succ n ih =>
    rw [List.range_succ, List.foldl_append, ih]
    rfl

theorem lastRefresh_succ (flags : ℕ → Bool) (j : ℕ) :
    lastRefresh flags (j + 1) = if flags (j + 1) then j + 1 else lastRefresh flags j := rfl

theorem fInp_initVolumes (k : ℕ) : initVolumes fInp k = 1 := by
  simp [initVolumes, fInp]

theorem fInp_force (row : ℕ) (v : Vec) (i : ℕ) :
    applyForcings fInp row v i = v i + fInp.pars row 1 * (v 0 / |v 0|) := by
  show (List.range fInp.nf).foldl (applyForcing fInp row) v i = _
  have hnf : fInp.nf = 1 := rfl
  have hr1 : List.range 1 = [0] := rfl
  rw [hnf, hr1, List.foldl_cons, List.foldl_nil]
  show v i + ∑ c ∈ Finset.range fInp.nc,
      fInp.forcing_transfers 0 i c *
        (fInp.pars row (fInp.forcing_tcov_inds 0) *
          normalise1 (fun c2 => fInp.forcings_out c2 0 * v c2) fInp.nc c) = _
  have hnc : fInp.nc = 1 := rfl
  rw [hnc, Finset.sum_range_one]
  simp [normalise1, fInp]

theorem fInp_state0 (i : ℕ) : (initState fInp).volumes i = 2 := by
  show (if fInp.forcing_inds 0 then applyForcings fInp 0 (initVolumes fInp)
        else initVolumes fInp) i = 2
  rw [if_pos (show fInp.forcing_inds 0 = true from rfl), fInp_force, fInp_initVolumes,
    fInp_initVolumes]
  have hp : fInp.pars 0 1 = 1 := by simp [fInp]
  rw [hp]
  norm_num

theorem fInp_cols :
    (∀ i, colVal (prevCol fInp trivSolver trivSvd 1) i = 2) ∧
    (∀ e, colVal (incCol fInp trivSolver trivSvd 1) e = 0) := by
  have hS : diffusionSqrt trivSvd (diffusionOf trivSolver fInp 0 (initState fInp)) fInp.ne =
      .ok (svdSqrt (fun _ _ => 0) (fun _ => 0) (fun _ _ => 0)
        (diffusionOf trivSolver fInp 0 (initState fInp)) fInp.ne) := by
    simp only [diffusionSqrt, trivSvd]
  generalize hSg : svdSqrt (fun _ _ => 0) (fun _ => 0) (fun _ _ => 0)
      (diffusionOf trivSolver fInp 0 (initState fInp)) fInp.ne = S at hS
  have hnat : ∀ e, natOf (logIncrement fInp trivSolver S 0 (initState fInp)) e = 0 := by
    intro e
    simp [natOf, logIncrement, driftOf, trivSolver, fInp, Real.exp_zero]
  have hsum : ∀ i, (initState fInp).volumes i + ∑ e ∈ Finset.range fInp.ne,
      fInp.stoich i e * natOf (logIncrement fInp trivSolver S 0 (initState fInp)) e = 2 := by
    intro i
    have hz : ∀ e, fInp.stoich i e *
        natOf (logIncrement fInp trivSolver S 0 (initState fInp)) e = 0 := by
      intro e; rw [hnat]; ring
    rw [Finset.sum_congr rfl fun e _ => hz e]
    simp [fInp_state0]
  have h1 : ¬ ∃ e ∈ Finset.range fInp.ne,
      natOf (logIncrement fInp trivSolver S 0 (initState fInp)) e < 0 := by
    rintro ⟨e, _, hlt⟩
    rw [hnat] at hlt
    exact absurd hlt (lt_irrefl 0)
  have h2 : ¬ ∃ i ∈ Finset.range fInp.nc, (initState fInp).volumes i +
      ∑ e ∈ Finset.range fInp.ne,
        fInp.stoich i e * natOf (logIncrement fInp trivSolver S 0 (initState fInp)) e < 0 := by
    rintro ⟨i, _, hlt⟩
    rw [hsum] at hlt
    norm_num at hlt
  have hforced : ∀ i, applyForcings fInp 1
      (fun i2 => (initState fInp).volumes i2 + ∑ e ∈ Finset.range fInp.ne,
        fInp.stoich i2 e * natOf (logIncrement fInp trivSolver S 0 (initState fInp)) e) i
      = 7 := by
    intro i
    rw [fInp_force]
    show ((initState fInp).volumes i + _) + fInp.pars 1 1 *
        (((initState fInp).volumes 0 + _) / |(initState fInp).volumes 0 + _|) = 7
    rw [hsum i, hsum 0]
    have hp : fInp.pars 1 1 = 5 := by simp [fInp]
    rw [hp, show |(2:ℝ)| = 2 from abs_of_pos (by norm_num)]
    norm_num
  have h3 : ¬ ∃ i ∈ Finset.range fInp.nc, applyForcings fInp 1
      (fun i2 => (initState fInp).volumes i2 + ∑ e ∈ Finset.range fInp.ne,
        fInp.stoich i2 e * natOf (logIncrement fInp trivSolver S 0 (initState fInp)) e) i
      < 0 := by
    rintro ⟨i, _, hlt⟩
    rw [hforced] at hlt
    norm_num at hlt
  have hstep := intervalStep_ok_force fInp trivSolver trivSvd 0 (initState fInp) S hS h1 h2
    rfl h3
  constructor
  · intro i
    show colVal (prevCol fInp trivSolver trivSvd (0 + 1)) i = 2
    rw [prevCol_succ_ok (stateAfter_zero fInp trivSolver trivSvd) hstep]
    exact hsum i
  · intro e
    show colVal (incCol fInp trivSolver trivSvd (0 + 1)) e = 0
    rw [incCol_succ_ok (stateAfter_zero fInp trivSolver trivSvd) hstep]
    exact hnat e

/-- C1 counterexample: at a concrete invocation with a forcing scheduled at
grid time 1, the prevalence recorded at column 1 (value 2) differs from
prevalence at column 0 plus stoichiometry times the incidence increment at
column 1 plus the forcing delta applied at time 1 (value 1 + 0 + 5 = 6):
the source records column `j+1` *before* applying the forcing at `t_{j+1}`. -/
theorem C1_counterexample :
    colVal (prevCol fInp trivSolver trivSvd 1) 0 ≠
      colVal (prevCol fInp trivSolver trivSvd 0) 0 +
        (∑ e ∈ Finset.range fInp.ne,
          fInp.stoich 0 e * colVal (incCol fInp trivSolver trivSvd 1) e) +
        forcingDelta fInp 1 (colVal (prevCol fInp trivSolver trivSvd 1)) 0 := by
  obtain ⟨hprev, hinc⟩ := fInp_cols
  have h0 : colVal (prevCol fInp trivSolver trivSvd 0) 0 = 1 := fInp_initVolumes 0
  have hsum0 : (∑ e ∈ Finset.range fInp.ne,
      fInp.stoich 0 e * colVal (incCol fInp trivSolver trivSvd 1) e) = 0 := by
    have hz : ∀ e, fInp.stoich 0 e * colVal (incCol fInp trivSolver trivSvd 1) e = 0 := by
      intro e; rw [hinc e]; ring
    rw [Finset.sum_congr rfl fun e _ => hz e]
    simp
  have hdelta : forcingDelta fInp 1 (colVal (prevCol fInp trivSolver trivSvd 1)) 0 = 5 := by
    show applyForcings fInp 1 (colVal (prevCol fInp trivSolver trivSvd 1)) 0 -
        colVal (prevCol fInp trivSolver trivSvd 1) 0 = 5
    rw [fInp_force, hprev 0]
    have hp : fInp.pars 1 1 = 5 := by simp [fInp]
    rw [hp, show |(2:ℝ)| = 2 from abs_of_pos (by norm_num)]
    norm_num
  rw [hprev 0, h0, hsum0, hdelta]
  norm_num

/-- C1, amended: incidence-path and prevalence-path column `j` carry the
same grid time `t_j`, and the prevalence recorded at column `j+1` equals
the prevalence recorded at column `j`, *with the forcing scheduled at time
`j` applied to it* (the source applies a forcing after recording the
column it is scheduled at), plus stoichiometry times the incidence
increment recorded at column `j+1`; the forcing at time `j+1` enters only
the state feeding column `j+2`. -/
theorem C1_amended (inp : LnaInputs) (s : Solver) (o : SvdOracle) (j : ℕ)
    (st : LoopState) (p : Vec) (out : Vec × Vec × LoopState)
    (hst : stateAfter inp s o j = .ok st) (hp : prevCol inp s o j = .ok p)
    (hout : intervalStep inp s o j st = .ok out) :
    (∀ c, lnaPathMat inp s o 0 c = inp.times c ∧ prevPathMat inp s o 0 c = inp.times c) ∧
    prevCol inp s o (j + 1) = .ok out.2.1 ∧
    incCol inp s o (j + 1) = .ok out.1 ∧
    (∀ i, out.2.1 i = (if inp.forcing_inds j then applyForcings inp j p else p) i +
      ∑ e ∈ Finset.range inp.ne, inp.stoich i e * out.1 e) := by
  refine ⟨fun c => ⟨rfl, rfl⟩, prevCol_succ_ok hst hout, incCol_succ_ok hst hout, ?_⟩
  intro i
  have hinv := state_volumes_forcing inp s o j st p hst hp
  have hshape := (intervalStep_shape inp s o j st out hout).1
  rw [hshape, ← hinv]

/-- C1 witness: the amended synchronization relation instantiated at the
minimal zero-draw invocation, interval 0. -/
theorem C1_witness :
    ∃ out, intervalStep trivInp trivSolver trivSvd 0 (initState trivInp) = .ok out ∧
      (∀ i, out.2.1 i = (if trivInp.forcing_inds 0 then
          applyForcings trivInp 0 (initVolumes trivInp) else initVolumes trivInp) i +
        ∑ e ∈ Finset.range trivInp.ne, trivInp.stoich i e * out.1 e) := by
  have hvol : ∀ i, (0:ℝ) ≤ (initState trivInp).volumes i := by
    intro i
    show (0:ℝ) ≤ 1
    norm_num
  obtain ⟨out, hstep, _, _, _⟩ := zeroStep trivInp trivSolver trivSvd
    (fun _ _ _ _ _ => rfl) (fun _ _ => rfl) (fun D => ⟨_, rfl⟩) (fun _ => rfl) 0
    (initState trivInp) hvol
  exact ⟨out, hstep, (C1_amended trivInp trivSolver trivSvd 0 (initState trivInp)
    (initVolumes trivInp) out rfl rfl hstep).2.2.2⟩

/-- C2 counterexample: at a concrete invocation with a forcing scheduled at
time 0 that raises the volume from 1 to 2, column 0 of the prevalence path
holds 1, the pre-forcing initial volume: the source records column 0
(line 92) *before* applying the time-0 forcing (lines 95-104). -/
theorem C2_counterexample :
    fInp.forcing_inds 0 = true ∧
    colVal (prevCol fInp trivSolver trivSvd 0) 0 = 1 ∧
    applyForcings fInp 0 (initVolumes fInp) 0 = 2 ∧
    (1 : ℝ) ≠ 2 :=
  ⟨rfl, fInp_initVolumes 0, fInp_state0 0, by norm_num⟩

/-- C2, amended: prevalence column 0 always equals the volumes extracted
from parameter-trajectory row 0 at the initial-volume offset, recorded
*before* any forcing scheduled at time 0; the time-0 forcing is applied
afterwards and affects only the state entering interval 0. -/
theorem C2_amended (inp : LnaInputs) (s : Solver) (o : SvdOracle) :
    prevCol inp s o 0 = .ok (initVolumes inp) ∧
    (∀ k, initVolumes inp k = inp.pars 0 (inp.init_start + k)) ∧
    stateAfter inp s o 0 = .ok (initState inp) ∧
    (initState inp).volumes =
      (if inp.forcing_inds 0 then applyForcings inp 0 (initVolumes inp)
       else initVolumes inp) :=
  ⟨rfl, fun _ => rfl, rfl, rfl⟩

/-- C3 counterexample: with stoichiometry 1, entry volume 1 and the
reachable increment `exp (log (1/2)) - 1 = -1/2`, the check block reports
`NegativeIncrement` while the volume buffer at exit holds `1/2 ≠ 1`: the
source adds `stoich_matrix * nat_lna` (line 164) *before* the negativity
check (line 168), so the volumes are not unchanged when the error is
raised. -/
theorem C3_counterexample :
    (incrementBlock sInp (fun _ => 1) (natOf fun _ => Real.log (1 / 2))).1 =
      .error .NegativeIncrement ∧
    (incrementBlock sInp (fun _ => 1) (natOf fun _ => Real.log (1 / 2))).2 0 = 1 / 2 ∧
    ((1 : ℝ) / 2 ≠ 1) := by
  have hnat : ∀ e, natOf (fun _ => Real.log (1 / 2)) e = -(1 / 2) := by
    intro e
    show Real.exp (Real.log (1 / 2)) - 1 = -(1 / 2)
    rw [Real.exp_log (by norm_num)]
    norm_num
  have hex : ∃ e ∈ Finset.range sInp.ne, natOf (fun _ => Real.log (1 / 2)) e < 0 :=
    ⟨0, by show (0:ℕ) ∈ Finset.range 1; simp, by rw [hnat]; norm_num⟩
  have hblk := incrementBlock_err_negInc sInp (fun _ => 1) (natOf fun _ => Real.log (1 / 2)) hex
  refine ⟨by rw [hblk], ?_, by norm_num⟩
  rw [hblk]
  show (1:ℝ) + ∑ e ∈ Finset.range sInp.ne,
      sInp.stoich 0 e * natOf (fun _ => Real.log (1 / 2)) e = 1 / 2
  have h1 : sInp.ne = 1 := rfl
  rw [h1, Finset.sum_range_one]
  have hs : sInp.stoich 0 0 = 1 := rfl
  rw [hs, hnat, one_mul]
  norm_num

/-- C3, amended: if any component of the natural-scale increment is
negative the engine fails with `NegativeIncrement` (taking precedence over
`NegativeVolume`); the local volume buffer is updated *before* the check,
but the failure aborts the interval before anything is recorded, so the
updated volumes never reach the output paths and the error is raised
within the interval in which it arises. -/
theorem C3_amended (inp : LnaInputs) (s : Solver) (o : SvdOracle) (j : ℕ)
    (st : LoopState) (S : Mat)
    (hS : diffusionSqrt o (diffusionOf s inp j st) inp.ne = .ok S)
    (hneg : ∃ e ∈ Finset.range inp.ne, natOf (logIncrement inp s S j st) e < 0) :
    intervalStep inp s o j st = .error .NegativeIncrement ∧
    (incrementBlock inp st.volumes (natOf (logIncrement inp s S j st))).1 =
      .error .NegativeIncrement ∧
    (stateAfter inp s o j = .ok st →
      stateAfter inp s o (j + 1) = .error .NegativeIncrement ∧
      prevCol inp s o (j + 1) = .error .NegativeIncrement ∧
      incCol inp s o (j + 1) = .error .NegativeIncrement) := by
  have hstep := intervalStep_err_negInc inp s o j st S hS hneg
  have hblk := incrementBlock_err_negInc inp st.volumes
    (natOf (logIncrement inp s S j st)) hneg
  exact ⟨hstep, by rw [hblk], fun hst =>
    ⟨stateAfter_succ_err hst hstep, prevCol_succ_err hst hstep, incCol_succ_err hst hstep⟩⟩

/-- C3 witness: a solver with drift `log (1/2)` under zero draws produces
the increment `-1/2` and the interval fails with `NegativeIncrement`. -/
theorem C3_witness :
    intervalStep trivInp negSolver trivSvd 0 (initState trivInp) =
      .error .NegativeIncrement := by
  have hS : diffusionSqrt trivSvd (diffusionOf negSolver trivInp 0 (initState trivInp))
      trivInp.ne = .ok (svdSqrt (fun _ _ => 0) (fun _ => 0) (fun _ _ => 0)
        (diffusionOf negSolver trivInp 0 (initState trivInp)) trivInp.ne) := by
    simp only [diffusionSqrt, trivSvd]
  generalize hSg : svdSqrt (fun _ _ => 0) (fun _ => 0) (fun _ _ => 0)
      (diffusionOf negSolver trivInp 0 (initState trivInp)) trivInp.ne = S at hS
  refine (C3_amended trivInp negSolver trivSvd 0 (initState trivInp) S hS ?_).1
  refine ⟨0, by show (0:ℕ) ∈ Finset.range 1; simp, ?_⟩
  have hlog : logIncrement trivInp negSolver S 0 (initState trivInp) 0 = Real.log (1 / 2) := by
    simp [logIncrement, driftOf, negSolver, trivInp]
  show Real.exp (logIncrement trivInp negSolver S 0 (initState trivInp) 0) - 1 < 0
  rw [hlog, Real.exp_log (by norm_num)]
  norm_num

/-- C4 counterexample: a drift containing `+∞` — non-finite but not NaN —
passes the `has_nan` gate, so the decomposition *is* consulted: with a
converging oracle the gate succeeds instead of failing with
`IntegrationFailure`, and with a non-converging oracle it reports
`DecompositionFailure`. -/
theorem C4_counterexample :
    FVal.pinf.isFinite = false ∧
    sqrtGate (fun _ => some (1 : ℕ)) (fun _ => FVal.pinf) (fun _ _ => FVal.fin 0) 1 =
      .ok 1 ∧
    sqrtGate (fun _ => (none : Option ℕ)) (fun _ => FVal.pinf) (fun _ _ => FVal.fin 0) 1 =
      .error .DecompositionFailure :=
  ⟨rfl, rfl, rfl⟩

/-- C4, amended: if the drift vector or the diffusion matrix contains a
NaN (not merely a non-finite value), the engine fails with
`IntegrationFailure`, and the result is independent of the `svd` oracle —
the decomposition is never attempted. -/
theorem C4_amended {σ : Type} (o o2 : (ℕ → ℕ → FVal) → Option σ) (drift : ℕ → FVal)
    (D : ℕ → ℕ → FVal) (n : ℕ)
    (h : (hasNanVec drift n || hasNanMat D n n) = true) :
    sqrtGate o drift D n = .error .IntegrationFailure ∧
    sqrtGate o drift D n = sqrtGate o2 drift D n := by
  constructor
  · simp only [sqrtGate, if_pos h]
  · simp only [sqrtGate, if_pos h]

/-- C4 witness: a NaN drift makes the gate fail with `IntegrationFailure`
for a concrete oracle. -/
theorem C4_witness :
    ((hasNanVec (fun _ => FVal.nan) 1 || hasNanMat (fun _ _ => FVal.fin 0) 1 1) = true) ∧
    sqrtGate (fun _ => some (1 : ℕ)) (fun _ => FVal.nan) (fun _ _ => FVal.fin 0) 1 =
      .error .IntegrationFailure :=
  ⟨rfl, (C4_amended (fun _ => some 1) (fun _ => none) (fun _ => FVal.nan)
    (fun _ _ => FVal.fin 0) 1 rfl).1⟩

/-- C5: for each forcing type `k` applied at a scheduled time, the
post-forcing volumes equal the pre-forcing volumes plus
`transfer_matrix[k] · (magnitude · d)` where the magnitude is read from
the designated trajectory column and `d` is the L1-normalisation of the
weight column times the volumes; when the weighted volumes are nonnegative
with nonzero norm the distribution sums to 1; and the forcing types at one
time are applied sequentially, each seeing the previous one's result. -/
theorem C5_mass_transfer (inp : LnaInputs) (row : ℕ) (v : Vec) (k : ℕ)
    (hnorm : ∑ c ∈ Finset.range inp.nc, |inp.forcings_out c k * v c| ≠ 0) :
    (∀ i, applyForcing inp row v k i = v i + ∑ c ∈ Finset.range inp.nc,
      inp.forcing_transfers k i c * (inp.pars row (inp.forcing_tcov_inds k) *
        ((inp.forcings_out c k * v c) /
          ∑ c2 ∈ Finset.range inp.nc, |inp.forcings_out c2 k * v c2|))) ∧
    ((∀ c, 0 ≤ inp.forcings_out c k * v c) →
      ∑ c ∈ Finset.range inp.nc,
        normalise1 (fun c2 => inp.forcings_out c2 k * v c2) inp.nc c = 1) ∧
    applyForcings inp row v = forcingsUpTo inp row v inp.nf ∧
    (∀ m, forcingsUpTo inp row v (m + 1) =
      applyForcing inp row (forcingsUpTo inp row v m) m) := by
  refine ⟨fun i => rfl, ?_, applyForcings_eq_upTo inp row v inp.nf, fun m => rfl⟩
  intro hpos
  have habs : ∀ c ∈ Finset.range inp.nc,
      |inp.forcings_out c k * v c| = inp.forcings_out c k * v c :=
    fun c _ => abs_of_nonneg (hpos c)
  show ∑ c ∈ Finset.range inp.nc, (inp.forcings_out c k * v c) /
      (∑ c2 ∈ Finset.range inp.nc, |inp.forcings_out c2 k * v c2|) = 1
  rw [← Finset.sum_div, ← Finset.sum_congr rfl habs]
  exact div_self hnorm

/-- C5 witness: the mass-transfer relation instantiated at the concrete
forcing invocation with unit weights and unit volumes. -/
theorem C5_witness :
    (∑ c ∈ Finset.range fInp.nc, |fInp.forcings_out c 0 * (fun _ => (1:ℝ)) c| ≠ 0) ∧
    applyForcings fInp 0 (fun _ => 1) = forcingsUpTo fInp 0 (fun _ => 1) fInp.nf := by
  have hnorm : ∑ c ∈ Finset.range fInp.nc,
      |fInp.forcings_out c 0 * (fun _ => (1:ℝ)) c| ≠ 0 := by
    have h1 : fInp.nc = 1 := rfl
    rw [h1, Finset.sum_range_one]
    show |fInp.forcings_out 0 0 * 1| ≠ 0
    have h2 : fInp.forcings_out 0 0 = 1 := rfl
    rw [h2]
    norm_num
  exact ⟨hnorm, (C5_mass_transfer fInp 0 (fun _ => 1) 0 hnorm).2.2.1⟩

/-- C6: for every diffusion matrix whose decomposition converges to
`(U, d, V)`, the engine's square root is exactly
`U · diag(sqrt d') · Vᵗ` with negative singular values clamped and entries
zeroed where the diffusion entry is exactly zero, and on the zero
diffusion matrix it is the zero matrix, produced with no failure. -/
theorem C6_svd_sqrt (o : SvdOracle) (n : ℕ) (U : Mat) (d : Vec) (V : Mat) (D : Mat)
    (hconv : o D = some (U, d, V)) :
    diffusionSqrt o D n = .ok (svdSqrt U d V D n) ∧
    (∀ i j, svdSqrt U d V D n i j = svdSqrtSpec U d V D n i j) ∧
    ((∀ i j, D i j = 0) → ∀ i j, svdSqrt U d V D n i j = 0) := by
  refine ⟨by simp only [diffusionSqrt, hconv], ?_, ?_⟩
  · intro i j
    by_cases hD : D i j = 0
    · simp only [svdSqrt, svdSqrtSpec, if_pos hD]
    · simp only [svdSqrt, svdSqrtSpec, if_neg hD, matMulN, transposeM]
      apply Finset.sum_congr rfl
      intro k hk
      have hinner : ∑ l ∈ Finset.range n,
          U i l * diagMat (fun m => Real.sqrt (clampNeg d m)) l k =
          U i k * Real.sqrt (clampNeg d k) := by
        simp only [diagMat, mul_ite, mul_zero]
        rw [Finset.sum_ite_eq' (Finset.range n) k
          (fun l => U i l * Real.sqrt (clampNeg d l))]
        rw [if_pos hk]
      rw [hinner]
  · intro hD i j
    simp only [svdSqrt, if_pos (hD i j)]

/-- C6 witness: the square-root relation at the zero diffusion matrix with
the converging zero oracle; the result is zero and no failure occurs. -/
theorem C6_witness :
    diffusionSqrt trivSvd (fun _ _ => (0:ℝ)) 1 =
      .ok (svdSqrt (fun _ _ => 0) (fun _ => 0) (fun _ _ => 0) (fun _ _ => 0) 1) ∧
    svdSqrt (fun _ _ => 0) (fun _ => 0) (fun _ _ => 0) (fun _ _ => 0) 1 0 0 = 0 := by
  have h := C6_svd_sqrt trivSvd 1 (fun _ _ => 0) (fun _ => 0) (fun _ _ => 0)
    (fun _ _ => 0) rfl
  exact ⟨h.1, h.2.2 (fun _ _ => rfl) 0 0⟩

/-- C7 counterexample: with zero draws and a zero-drift solver but a
forcing scheduled, the prevalence path is *not* constant: column 0 holds
the pre-forcing volume 1 and column 1 the post-forcing volume 2. -/
theorem C7_counterexample :
    (∀ e j2, fInp.draws e j2 = 0) ∧
    (∀ p a b h e, (trivSolver p a b h).1 e = 0) ∧
    colVal (prevCol fInp trivSolver trivSvd 0) 0 = 1 ∧
    colVal (prevCol fInp trivSolver trivSvd 1) 0 = 2 ∧
    (1 : ℝ) ≠ 2 :=
  ⟨fun _ _ => rfl, fun _ _ _ _ _ => rfl, fInp_initVolumes 0, fInp_cols.1 0, by norm_num⟩

/-- C7, amended: with zero draws and zero drift the natural-scale
increment is exactly zero on every interval; when additionally no forcing
is scheduled at any time, the decomposition converges and the initial
volumes are nonnegative, every interval succeeds and the prevalence path
is constant, equal to the initial volumes. -/
theorem C7_amended (inp : LnaInputs) (s : Solver) (o : SvdOracle)
    (hdrift : ∀ p a b h e, (s p a b h).1 e = 0)
    (hdraws : ∀ e j2, inp.draws e j2 = 0)
    (hsvd : ∀ D, ∃ t, o D = some t)
    (hforce : ∀ j2, inp.forcing_inds j2 = false)
    (hvol : ∀ i, 0 ≤ initVolumes inp i) :
    ∀ j, (∃ st, stateAfter inp s o j = .ok st) ∧
      (∀ e, colVal (incCol inp s o j) e = 0) ∧
      (∀ i, colVal (prevCol inp s o j) i = initVolumes inp i) := by
  intro j
  obtain ⟨st, h1, _, h3, h4⟩ := zeroRun inp s o hdrift hdraws hsvd hforce hvol j
  exact ⟨⟨st, h1⟩, h4, h3⟩

/-- C7 witness: the amended constant-path property at the minimal
forcing-free zero-draw invocation, column 1. -/
theorem C7_witness :
    (∀ i, (0:ℝ) ≤ initVolumes trivInp i) ∧
    (∀ i, colVal (prevCol trivInp trivSolver trivSvd 1) i = initVolumes trivInp i) := by
  have hvol : ∀ i, (0:ℝ) ≤ initVolumes trivInp i := by
    intro i
    show (0:ℝ) ≤ 1
    norm_num
  exact ⟨hvol, (C7_amended trivInp trivSolver trivSvd (fun _ _ _ _ _ => rfl)
    (fun _ _ => rfl) (fun D => ⟨_, rfl⟩) (fun _ => rfl) hvol 1).2.2⟩

/-- C8: the engine is deterministic: two invocations with identical inputs
(time grid, draws, trajectory, stoichiometry, forcing schedule and
tensors), the same deterministic solver and the same decomposition oracle
produce identical incidence and prevalence paths — all randomness enters
through the draw matrix. -/
theorem C8_determinism (inp1 inp2 : LnaInputs) (s1 s2 : Solver) (o1 o2 : SvdOracle)
    (h1 : inp1 = inp2) (h2 : s1 = s2) (h3 : o1 = o2) :
    proposeLna inp1 s1 o1 = proposeLna inp2 s2 o2 ∧
    lnaPathMat inp1 s1 o1 = lnaPathMat inp2 s2 o2 ∧
    prevPathMat inp1 s1 o1 = prevPathMat inp2 s2 o2 := by
  subst h1; subst h2; subst h3
  exact ⟨rfl, rfl, rfl⟩

/-- C8 witness: determinism instantiated at the minimal invocation. -/
theorem C8_witness :
    proposeLna trivInp trivSolver trivSvd = proposeLna trivInp trivSolver trivSvd ∧
    lnaPathMat trivInp trivSolver trivSvd = lnaPathMat trivInp trivSolver trivSvd ∧
    prevPathMat trivInp trivSolver trivSvd = prevPathMat trivInp trivSolver trivSvd :=
  C8_determinism trivInp trivInp trivSolver trivSolver trivSvd trivSvd rfl rfl rfl

/-- C9: the interval-width adapter maps each width to
`exp (log w + a · (e/(e+c) - target))`, where `e` and `c` are the batch
expansion and contraction counts with every zero component replaced by the
running ratio `c_exp/(c_exp + c_con)` of the cumulative counts; the stored
ratio is that running ratio and both batch counters are reset to zero. -/
theorem C9_interval_widths (st : AfssState) (c_exp c_con : ℕ → ℝ) (a t : ℝ) :
    ∀ i, (update_interval_widths st c_exp c_con a t).interval_widths i =
      Real.exp (Real.log (st.interval_widths i) + a *
        ((if st.n_expansions i = 0 then c_exp i / (c_exp i + c_con i)
          else st.n_expansions i) /
         ((if st.n_expansions i = 0 then c_exp i / (c_exp i + c_con i)
           else st.n_expansions i) +
          (if st.n_contractions i = 0 then c_exp i / (c_exp i + c_con i)
           else st.n_contractions i)) - t)) ∧
      (update_interval_widths st c_exp c_con a t).slice_ratios i =
        c_exp i / (c_exp i + c_con i) ∧
      (update_interval_widths st c_exp c_con a t).n_expansions i = 0 ∧
      (update_interval_widths st c_exp c_con a t).n_contractions i = 0 :=
  fun _ => ⟨rfl, rfl, rfl, rfl⟩

/-- C10: throughout an invocation, the only snapshot entries modified
after initialization are the volume sub-range starting at `init_start`
(overwritten every interval with the current volumes) and, when the ranges
are disjoint, the `n_tcovar`-entry tail (holding the values of the most
recent flagged trajectory row, row 0 when none is flagged); every other
entry keeps its row-0 value. -/
theorem C10_frame (inp : LnaInputs) (s : Solver) (o : SvdOracle) :
    ∀ (j : ℕ) (st : LoopState), stateAfter inp s o j = .ok st →
      (∀ i, ¬(inp.init_start ≤ i ∧ i < inp.init_start + inp.nc) →
        ¬(inp.P - inp.ntc ≤ i ∧ i < inp.P) → st.params i = inp.pars 0 i) ∧
      (inp.init_start + inp.nc ≤ inp.P - inp.ntc →
        ∀ i, inp.P - inp.ntc ≤ i → i < inp.P →
          st.params i = inp.pars (lastRefresh inp.param_update_inds j) i) ∧
      (1 ≤ j → ∀ k, k < inp.nc → st.params (inp.init_start + k) = st.volumes k) := by
  intro j
  induction j with
  | zero =>
    intro st hst
    rw [stateAfter_zero, Except.ok.injEq] at hst
    subst hst
    exact ⟨fun i _ _ => rfl, fun _ i _ _ => rfl, fun h1 => absurd h1 (by omega)⟩
  | succ j ih =>
    intro st hst
    rw [stateAfter_succ] at hst
    cases hs : stateAfter inp s o j with
    | error e => rw [hs, ex_bind_err] at hst; exact absurd hst (by simp)
    | ok st0 =>
      rw [hs, ex_bind_ok] at hst
      cases hi : intervalStep inp s o j st0 with
      | error e => rw [hi, ex_map_err] at hst; exact absurd hst (by simp)
      | ok out =>
        rw [hi, ex_map_ok, Except.ok.injEq] at hst
        subst hst
        have hpar := (intervalStep_shape inp s o j st0 out hi).2.2
        obtain ⟨ih1, ih2, _⟩ := ih st0 hs
        refine ⟨?_, ?_, ?_⟩
        · intro i hnv hnt
          rw [hpar]
          simp only [newParams]
          rw [if_neg hnv, if_neg (fun hc => hnt hc.2)]
          exact ih1 i hnv hnt
        · intro hdisj i hi1 hi2
          rw [hpar]
          simp only [newParams]
          have hnv : ¬(inp.init_start ≤ i ∧ i < inp.init_start + inp.nc) := by
            rintro ⟨_, hlt⟩
            omega
          rw [if_neg hnv]
          cases hflag : inp.param_update_inds (j + 1) with
          | true =>
            rw [if_pos ⟨rfl, hi1, hi2⟩, lastRefresh_succ, if_pos hflag]
          | false =>
            rw [if_neg fun hc => Bool.false_ne_true hc.1, lastRefresh_succ,
              if_neg (by rw [hflag]; exact Bool.false_ne_true)]
            exact ih2 hdisj i hi1 hi2
        · intro _ k hk
          rw [hpar]
          simp only [newParams]
          rw [if_pos ⟨Nat.le_add_right _ _, by omega⟩, Nat.add_sub_cancel_left]

/-- C10 witness: the frame property at the minimal invocation after one
interval: snapshot entry 5, outside both written ranges, keeps its row-0
value. -/
theorem C10_witness :
    ∃ st, stateAfter trivInp trivSolver trivSvd 1 = .ok st ∧
      st.params 5 = trivInp.pars 0 5 := by
  have hvol : ∀ i, (0:ℝ) ≤ initVolumes trivInp i := by
    intro i
    show (0:ℝ) ≤ 1
    norm_num
  obtain ⟨st, h1, _, _, _⟩ := zeroRun trivInp trivSolver trivSvd (fun _ _ _ _ _ => rfl)
    (fun _ _ => rfl) (fun D => ⟨_, rfl⟩) (fun _ => rfl) hvol 1
  refine ⟨st, h1, (C10_frame trivInp trivSolver trivSvd 1 st h1).1 5 ?_ ?_⟩
  · rintro ⟨_, hlt⟩
    have h2 : trivInp.init_start + trivInp.nc = 1 := rfl
    rw [h2] at hlt
    omega
  · rintro ⟨_, hlt⟩
    have h2 : trivInp.P = 2 := rfl
    rw [h2] at hlt
    omega

end Stemr
